import Mathlib

/-!
Shallow embedding of the archive-ingestion and node-view logic of the
`ilm_analyzer` repository (`src/components/FileUpload.tsx` and
`src/views/NodesView.tsx`), together with proofs of the spec's testable
properties.

JSON values are modelled by an inductive `Json`; JavaScript truthiness
(`!x`, `x || y`, `if (x)`) is modelled by `truthy`.  A zip entry carries
its path, its directory flag, and `Option Json`: `none` models a text
decode or `JSON.parse` failure for that entry, `some j` a successful
parse to `j`.  The whole `processZipFile` handler is modelled as a pure
function from the result of `zip.loadAsync` (`Except` an error message)
to a record of observable effects: the list of `onDataLoaded` calls, the
advisory set by `setError`, the `localStorage` writes of the main flow,
and the fatal error, if any.
-/

/-- A parsed JSON value (numbers restricted to integers; the routing and
truthiness logic never inspects numeric magnitude beyond zero-ness). -/
inductive Json where
  | null : Json
  | bool (b : Bool) : Json
  | num (n : Int) : Json
  | str (s : String) : Json
  | arr (xs : List Json) : Json
  | obj (fs : List (String × Json)) : Json

/-- JavaScript truthiness of a parsed JSON value: `null`, `false`, `0`
and the empty string are falsy; every array and object is truthy. -/
def truthy : Json → Bool
  | .null => false
  | .bool b => b
  | .num n => n != 0
  | .str s => s != ""
  | .arr _ => true
  | .obj _ => true

/-- JavaScript `String.prototype.toLowerCase()`, character by character. -/
def jsToLower (s : String) : String := ⟨s.data.map Char.toLower⟩

/-- JavaScript `String.prototype.includes(sub)`: substring containment. -/
def jsIncludes (s sub : String) : Bool := decide (sub.data <:+: s.data)

/-- One entry of the opened zip archive, as enumerated by
`Object.entries(contents.files)`: its path, the `dir` flag, and the
result of `zipEntry.async('string')` + `JSON.parse` (`none` = failure). -/
structure ZipEntry where
  path : String
  dir : Bool
  content : Option Json

/-- The eight recognized filename rules, in the order of the `if`-chain
in `processZipFile`. -/
inductive Rule where
  | errors | policies | version | shards | allocation | settings | nodesStats | pipelines
  deriving DecidableEq, Fintype

/-- The filename substring each rule tests with `normalizedPath.includes(...)`. -/
def Rule.pat : Rule → String
  | .errors => "ilm_explain_only_errors.json"
  | .policies => "ilm_policies.json"
  | .version => "version.json"
  | .shards => "shards.json"
  | .allocation => "allocation_explain.json"
  | .settings => "settings.json"
  | .nodesStats => "nodes_stats.json"
  | .pipelines => "pipelines.json"

/-- The label pushed onto `foundFiles` when a rule fires. -/
def Rule.foundName : Rule → String
  | .errors => "ILM Errors"
  | .policies => "ILM Policies"
  | .version => "Version Info"
  | .shards => "Shards Info"
  | .allocation => "Allocation Info"
  | .settings => "Settings Info"
  | .nodesStats => "Nodes Stats"
  | .pipelines => "Pipelines"

/-- The fixed ordered table of rules, in `if`-chain order. -/
def ruleOrder : List Rule :=
  [.errors, .policies, .version, .shards, .allocation, .settings, .nodesStats, .pipelines]

/-- Whether a (not yet lower-cased) entry path matches a rule:
case-insensitive substring test, as in the source's
`path.toLowerCase().includes(rule)`. -/
def matchesRule (r : Rule) (path : String) : Bool := jsIncludes (jsToLower path) r.pat

/-- The `if`/`else if` chain of `processZipFile`, applied to the already
lower-cased `normalizedPath`: the first rule whose substring the path
contains, if any. -/
def route (normalizedPath : String) : Option Rule :=
  if jsIncludes normalizedPath Rule.errors.pat then some .errors
  else if jsIncludes normalizedPath Rule.policies.pat then some .policies
  else if jsIncludes normalizedPath Rule.version.pat then some .version
  else if jsIncludes normalizedPath Rule.shards.pat then some .shards
  else if jsIncludes normalizedPath Rule.allocation.pat then some .allocation
  else if jsIncludes normalizedPath Rule.settings.pat then some .settings
  else if jsIncludes normalizedPath Rule.nodesStats.pat then some .nodesStats
  else if jsIncludes normalizedPath Rule.pipelines.pat then some .pipelines
  else none

/-- The mutable locals of `processZipFile`: the eight `...Json` variables
(each initialized to JavaScript `null`) and the `foundFiles` list. -/
structure ZipState where
  errorsJson : Json
  policiesJson : Json
  versionJson : Json
  shardsJson : Json
  allocationJson : Json
  settingsJson : Json
  nodesStatsJson : Json
  pipelinesJson : Json
  foundFiles : List String

/-- Initial state: every `...Json` variable is `null`, `foundFiles` empty. -/
def ZipState.init : ZipState :=
  ⟨.null, .null, .null, .null, .null, .null, .null, .null, []⟩

/-- Read the variable a rule assigns. -/
def ZipState.get (st : ZipState) : Rule → Json
  | .errors => st.errorsJson
  | .policies => st.policiesJson
  | .version => st.versionJson
  | .shards => st.shardsJson
  | .allocation => st.allocationJson
  | .settings => st.settingsJson
  | .nodesStats => st.nodesStatsJson
  | .pipelines => st.pipelinesJson

/-- Assign the variable a rule targets. -/
def ZipState.set (st : ZipState) : Rule → Json → ZipState
  | .errors, j => { st with errorsJson := j }
  | .policies, j => { st with policiesJson := j }
  | .version, j => { st with versionJson := j }
  | .shards, j => { st with shardsJson := j }
  | .allocation, j => { st with allocationJson := j }
  | .settings, j => { st with settingsJson := j }
  | .nodesStats, j => { st with nodesStatsJson := j }
  | .pipelines, j => { st with pipelinesJson := j }

/-- One iteration of the main `for` loop of `processZipFile`: skip
directories, swallow per-entry decode/parse failures, and otherwise run
the `if`-chain, assigning the matched variable and pushing the label. -/
def applyEntry (st : ZipState) (e : ZipEntry) : ZipState :=
  if e.dir then st
  else
    match e.content with
    | none => st
    | some j =>
      match route (jsToLower e.path) with
      | none => st
      | some r => { st.set r j with foundFiles := st.foundFiles ++ [r.foundName] }

/-- The state after the main loop over all archive entries. -/
def processEntries (entries : List ZipEntry) : ZipState :=
  entries.foldl applyEntry .init

/-- The `missingFiles` list built when the advisory fires. -/
def missingFiles (st : ZipState) : List String :=
  (if truthy st.errorsJson then [] else ["ilm_explain_only_errors.json"]) ++
  (if truthy st.policiesJson then [] else ["ilm_policies.json"])

/-- The non-fatal advisory (`setError` with a `Note:` message): raised
exactly when `!errorsJson || !policiesJson`, carrying the missing-file
names interpolated into the message. -/
def advisoryOf (st : ZipState) : Option (List String) :=
  if !truthy st.errorsJson || !truthy st.policiesJson then some (missingFiles st) else none

/-- The main-flow `localStorage` writes: `settings` is written iff
`settingsJson` is truthy (`if (settingsJson)`). -/
def settingsStore (st : ZipState) : List (String × Json) :=
  if truthy st.settingsJson then [("settings", st.settingsJson)] else []

/-- The eight positional arguments of `onDataLoaded` in the archive path
(`shards` already defaulted by `shardsJson || []`). -/
structure Bundle where
  errors : Json
  policies : Json
  version : Json
  shards : Json
  allocation : Json
  settings : Json
  nodesStats : Json
  pipelines : Json

/-- Read the bundle field a rule populates. -/
def Bundle.get (b : Bundle) : Rule → Json
  | .errors => b.errors
  | .policies => b.policies
  | .version => b.version
  | .shards => b.shards
  | .allocation => b.allocation
  | .settings => b.settings
  | .nodesStats => b.nodesStats
  | .pipelines => b.pipelines

/-- The bundle delivered to `onDataLoaded` from the final loop state. -/
def bundleOf (st : ZipState) : Bundle :=
  { errors := st.errorsJson
    policies := st.policiesJson
    version := st.versionJson
    shards := if truthy st.shardsJson then st.shardsJson else .arr []
    allocation := st.allocationJson
    settings := st.settingsJson
    nodesStats := st.nodesStatsJson
    pipelines := st.pipelinesJson }

/-- The observable effects of one `processZipFile` run: the
`onDataLoaded` invocations, the advisory, the main-flow `localStorage`
writes, and the fatal error message, if any. -/
structure RunResult where
  calls : List Bundle
  advisory : Option (List String)
  stored : List (String × Json)
  fatal : Option String

/-- `processZipFile`, as a function of the outcome of
`zip.loadAsync(file)`: a load failure is caught by the outer
`try`/`catch` (fatal, no callback); a loaded archive runs the main loop,
raises the advisory if `!errorsJson || !policiesJson`, stores truthy
settings, and calls `onDataLoaded` exactly once. -/
def processZipFile : Except String (List ZipEntry) → RunResult
  | .error msg => { calls := [], advisory := none, stored := [], fatal := some msg }
  | .ok entries =>
    let st := processEntries entries
    { calls := [bundleOf st]
      advisory := advisoryOf st
      stored := settingsStore st
      fatal := none }

/-- The deferred `setTimeout` pass over the archive: `localStorage`
writes for `index_templates.json` and `alias.json`/`aliases.json`
entries, each parse failure swallowed per entry. -/
def processOptionalFiles (entries : List ZipEntry) : List (String × Json) :=
  entries.foldl
    (fun acc e =>
      if e.dir then acc
      else
        let p := jsToLower e.path
        if jsIncludes p "index_templates.json" || jsIncludes p "alias.json" ||
            jsIncludes p "aliases.json" then
          match e.content with
          | none => acc
          | some j =>
            if jsIncludes p "index_templates.json" then acc ++ [("index_templates", j)]
            else acc ++ [("aliases", j)]
        else acc)
    []

/-- The nine demo resources fetched by `loadDemoData`, each `none` when
its fetch or `res.json()` decode fails. -/
structure DemoResources where
  errors : Option Json
  policies : Option Json
  templates : Option Json
  aliases : Option Json
  shards : Option Json
  allocation : Option Json
  settings : Option Json
  nodesStats : Option Json
  pipelines : Option Json

/-- The arguments of `onDataLoaded` in the demo path: `version` is
passed as `undefined` (`none`); no defaulting is applied to `shards`. -/
structure DemoBundle where
  errors : Json
  policies : Json
  version : Option Json
  shards : Json
  allocation : Json
  settings : Json
  nodesStats : Json
  pipelines : Json

/-- The observable effects of one `loadDemoData` run. -/
structure DemoRunResult where
  calls : List DemoBundle
  stored : List (String × Json)
  fatal : Option String

/-- `loadDemoData`: the nine fetches and decodes are joined by
`Promise.all`, so any single failure rejects the whole operation and the
`catch` sets the fatal message; on success, `index_templates` and
`aliases` are always stored, `settings` only when truthy, and
`onDataLoaded` is called once with `version` `undefined`. -/
def loadDemoData (res : DemoResources) : DemoRunResult :=
  match res.errors, res.policies, res.templates, res.aliases, res.shards,
      res.allocation, res.settings, res.nodesStats, res.pipelines with
  | some e, some p, some t, some a, some sh, some al, some se, some ns, some pi =>
    { calls := [{ errors := e, policies := p, version := none, shards := sh,
                  allocation := al, settings := se, nodesStats := ns, pipelines := pi }]
      stored := [("index_templates", t), ("aliases", a)] ++
        (if truthy se then [("settings", se)] else [])
      fatal := none }
  | _, _, _, _, _, _, _, _, _ =>
    { calls := [], stored := [], fatal := some "Failed to load demo data" }

/-- Modelled from the spec and the `NodesView` usage: the `MasterNode`
type from the repository's `types.ts` (absent from `src/`) identifies
the elected master "by node id and/or name", so both fields are
optional strings. -/
structure MasterNode where
  id : Option String
  node : Option String

/-- `isMasterNode` from `NodesView.tsx`: with no master record the
answer is always `false`; otherwise the node is master when its id
equals the record's `id` or its name equals the record's `node`. -/
def isMasterNode (masterNode : Option MasterNode) (nodeId nodeName : String) : Bool :=
  match masterNode with
  | none => false
  | some m => m.id == some nodeId || m.node == some nodeName

/-- An entry that contributes to rule `r` in the main loop: not a
directory, successfully parsed, and routed to `r` by the `if`-chain. -/
def matchedEntry (e : ZipEntry) (r : Rule) : Prop :=
  e.dir = false ∧ e.content.isSome = true ∧ route (jsToLower e.path) = some r

instance (e : ZipEntry) (r : Rule) : Decidable (matchedEntry e r) := by
  unfold matchedEntry; infer_instance

/-- Some non-directory entry of the archive is routed to rule `r` and
parses successfully. -/
def foundIn (entries : List ZipEntry) (r : Rule) : Prop :=
  ∃ e ∈ entries, matchedEntry e r

instance (entries : List ZipEntry) (r : Rule) : Decidable (foundIn entries r) := by
  unfold foundIn; infer_instance

/-- The parse result of an entry is truthy (in particular, present). -/
def truthyContent (e : ZipEntry) : Bool :=
  match e.content with
  | some j => truthy j
  | none => false

/-- A well-formed archive: every routed non-directory entry parses to a
truthy JSON value (real diagnostic files are JSON objects or arrays,
which are always truthy). -/
def wellFormed (entries : List ZipEntry) : Prop :=
  ∀ e ∈ entries, e.dir = false → (route (jsToLower e.path)).isSome = true →
    truthyContent e = true

instance (entries : List ZipEntry) : Decidable (wellFormed entries) := by
  unfold wellFormed; infer_instance

/-- One step of the last-match accumulator for rule `r`. -/
def stepMatch (r : Rule) (acc : Option Json) (e : ZipEntry) : Option Json :=
  if e.dir then acc
  else
    match e.content with
    | none => acc
    | some j =>
      match route (jsToLower e.path) with
      | none => acc
      | some r2 => if r2 = r then some j else acc

/-- The parse result of the last entry routed to `r`, if any. -/
def lastMatch (entries : List ZipEntry) (r : Rule) : Option Json :=
  entries.foldl (stepMatch r) none

/-! ### Helper lemmas about the loop state -/

theorem ZipState.get_set (st : ZipState) (r : Rule) (j : Json) (r2 : Rule) :
    (st.set r j).get r2 = if r = r2 then j else st.get r2 := by
  cases r <;> cases r2 <;> rfl

theorem ZipState.get_withFound (st : ZipState) (l : List String) (r : Rule) :
    ({ st with foundFiles := l }).get r = st.get r := by
  cases r <;> rfl

theorem ZipState.init_get (r : Rule) : ZipState.init.get r = .null := by
  cases r <;> rfl

theorem stepMatch_acc (r : Rule) (a : Option Json) (e : ZipEntry) :
    stepMatch r a e = match stepMatch r none e with
      | some j => some j
      | none => a := by
  unfold stepMatch
  rcases e with ⟨p, d, c⟩
  dsimp only
  cases d
  · cases c with
    | none => simp
    | some j =>
      cases hr : route (jsToLower p) with
      | none => simp
      | some r2 =>
        by_cases h : r2 = r <;> simp [h]
  · simp

theorem applyEntry_get (st : ZipState) (e : ZipEntry) (r : Rule) :
    (applyEntry st e).get r = match stepMatch r none e with
      | some j => j
      | none => st.get r := by
  unfold applyEntry stepMatch
  rcases e with ⟨p, d, c⟩
  dsimp only
  cases d
  · cases c with
    | none => simp
    | some j =>
      cases hr : route (jsToLower p) with
      | none => simp
      | some r2 =>
        by_cases h : r2 = r
        · subst h
          simp [ZipState.get_withFound, ZipState.get_set]
        · simp [h, Ne.symm h, ZipState.get_withFound, ZipState.get_set]
  · simp

theorem foldl_stepMatch_acc (es : List ZipEntry) (a : Option Json) (r : Rule) :
    es.foldl (stepMatch r) a = match es.foldl (stepMatch r) none with
      | some j => some j
      | none => a := by
  induction es generalizing a with
  | nil => rfl
  | cons e es ih =>
    rw [List.foldl_cons, List.foldl_cons, ih (stepMatch r a e), ih (stepMatch r none e)]
    cases h : es.foldl (stepMatch r) none with
    | some j => rfl
    | none => exact stepMatch_acc r a e

theorem lastMatch_cons (e : ZipEntry) (es : List ZipEntry) (r : Rule) :
    lastMatch (e :: es) r = match lastMatch es r with
      | some j => some j
      | none => stepMatch r none e := by
  unfold lastMatch
  rw [List.foldl_cons]
  exact foldl_stepMatch_acc es (stepMatch r none e) r

theorem lastMatch_append (l1 l2 : List ZipEntry) (r : Rule) :
    lastMatch (l1 ++ l2) r = match lastMatch l2 r with
      | some j => some j
      | none => lastMatch l1 r := by
  unfold lastMatch
  rw [List.foldl_append]
  exact foldl_stepMatch_acc l2 (l1.foldl (stepMatch r) none) r

theorem get_foldl (entries : List ZipEntry) (st : ZipState) (r : Rule) :
    (entries.foldl applyEntry st).get r = match lastMatch entries r with
      | some j => j
      | none => st.get r := by
  induction entries generalizing st with
  | nil => rfl
  | cons e es ih =>
    rw [List.foldl_cons, ih (applyEntry st e), lastMatch_cons]
    cases h : lastMatch es r with
    | some j => rfl
    | none => exact applyEntry_get st e r

theorem get_processEntries (entries : List ZipEntry) (r : Rule) :
    (processEntries entries).get r = match lastMatch entries r with
      | some j => j
      | none => .null := by
  rw [processEntries, get_foldl, ZipState.init_get]

theorem stepMatch_none_eq_some (r : Rule) (e : ZipEntry) (j : Json) :
    stepMatch r none e = some j ↔ matchedEntry e r ∧ e.content = some j := by
  unfold stepMatch matchedEntry
  rcases e with ⟨p, d, c⟩
  dsimp only
  cases d
  · cases c with
    | none => simp
    | some j2 =>
      cases hr : route (jsToLower p) with
      | none => simp [hr]
      | some r2 =>
        by_cases h : r2 = r
        · subst h; simp [hr]
        · simp [hr, h, Ne.symm h]
  · simp

theorem stepMatch_none_eq_none (r : Rule) (e : ZipEntry) :
    stepMatch r none e = none ↔ ¬ matchedEntry e r := by
  cases h : stepMatch r none e with
  | some j =>
    simp only [reduceCtorEq, false_iff, not_not]
    exact ((stepMatch_none_eq_some r e j).mp h).1
  | none =>
    simp only [true_iff]
    intro hm
    rcases hm with ⟨hd, hc, hr⟩
    rcases Option.isSome_iff_exists.mp hc with ⟨j, hj⟩
    have : stepMatch r none e = some j := by
      rw [stepMatch_none_eq_some]
      exact ⟨⟨hd, hc, hr⟩, hj⟩
    rw [h] at this
    exact Option.noConfusion this

theorem lastMatch_eq_some (entries : List ZipEntry) (r : Rule) (j : Json)
    (h : lastMatch entries r = some j) :
    ∃ e ∈ entries, matchedEntry e r ∧ e.content = some j := by
  induction entries with
  | nil => exact absurd h (by simp [lastMatch])
  | cons e es ih =>
    rw [lastMatch_cons] at h
    cases h2 : lastMatch es r with
    | some j2 =>
      rw [h2] at h
      cases h
      rcases ih h2 with ⟨e2, hmem, hm⟩
      exact ⟨e2, List.mem_cons_of_mem e hmem, hm⟩
    | none =>
      rw [h2] at h
      rcases (stepMatch_none_eq_some r e j).mp h with ⟨hm, hc⟩
      exact ⟨e, List.mem_cons_self e es, hm, hc⟩

theorem lastMatch_eq_none (entries : List ZipEntry) (r : Rule) :
    lastMatch entries r = none ↔ ∀ e ∈ entries, ¬ matchedEntry e r := by
  induction entries with
  | nil => simp [lastMatch]
  | cons e es ih =>
    rw [lastMatch_cons]
    cases h2 : lastMatch es r with
    | some j2 =>
      simp only [reduceCtorEq, false_iff]
      intro hall
      rcases lastMatch_eq_some es r j2 h2 with ⟨e2, hmem, hm, _⟩
      exact hall e2 (List.mem_cons_of_mem e hmem) hm
    | none =>
      rw [stepMatch_none_eq_none]
      constructor
      · intro hne e2 hmem
        rcases List.mem_cons.mp hmem with h | h
        · subst h; exact hne
        · exact (ih.mp h2) e2 h
      · intro hall
        exact hall e (List.mem_cons_self e es)

theorem foundIn_iff_lastMatch (entries : List ZipEntry) (r : Rule) :
    foundIn entries r ↔ lastMatch entries r ≠ none := by
  rw [Ne, lastMatch_eq_none, foundIn]
  push_neg
  simp

theorem bundleOf_get_shards (st : ZipState) :
    (bundleOf st).get .shards = if truthy st.shardsJson then st.shardsJson else .arr [] := rfl

theorem bundleOf_get_ne_shards (st : ZipState) (r : Rule) (h : r ≠ .shards) :
    (bundleOf st).get r = st.get r := by
  cases r
  · rfl
  · rfl
  · rfl
  · exact absurd rfl h
  · rfl
  · rfl
  · rfl
  · rfl

theorem truthy_get_iff_found (entries : List ZipEntry) (r : Rule)
    (h : wellFormed entries) :
    truthy ((processEntries entries).get r) = true ↔ foundIn entries r := by
  rw [get_processEntries]
  cases hl : lastMatch entries r with
  | none =>
    simp only [truthy, Bool.false_eq_true, false_iff]
    rw [foundIn_iff_lastMatch, hl]
    simp
  | some j =>
    simp only [true_iff]
    constructor
    · intro _
      rw [foundIn_iff_lastMatch, hl]
      simp
    · intro _
      rcases lastMatch_eq_some entries r j hl with ⟨e, hmem, hm, hc⟩
      rcases hm with ⟨hd, hs, hr⟩
      have ht : truthyContent e = true := h e hmem hd (by rw [hr]; rfl)
      rw [truthyContent, hc] at ht
      exact ht

theorem get_ne_null_iff_found (entries : List ZipEntry) (r : Rule)
    (h : wellFormed entries) :
    (processEntries entries).get r ≠ .null ↔ foundIn entries r := by
  constructor
  · intro hne
    rw [foundIn_iff_lastMatch]
    intro hl
    rw [get_processEntries, hl] at hne
    exact hne rfl
  · intro hf
    have ht := (truthy_get_iff_found entries r h).mpr hf
    intro heq
    rw [heq] at ht
    exact Bool.noConfusion ht

theorem not_found_get_null (entries : List ZipEntry) (r : Rule)
    (h : ¬ foundIn entries r) :
    (processEntries entries).get r = .null := by
  rw [foundIn_iff_lastMatch, not_not] at h
  rw [get_processEntries, h]

/-! ### Lemmas about JavaScript string normalization -/

theorem Char.toLower_eq_ite (c : Char) :
    c.toLower = if c.toNat ≥ 65 ∧ c.toNat ≤ 90 then Char.ofNat (c.toNat + 32) else c := rfl

theorem Char.toLower_toLower (c : Char) : c.toLower.toLower = c.toLower := by
  by_cases h : c.toNat ≥ 65 ∧ c.toNat ≤ 90
  · have hv : (c.toNat + 32).isValidChar := Or.inl (by omega)
    have ht : (Char.ofNat (c.toNat + 32)).toNat = c.toNat + 32 := by
      unfold Char.ofNat
      rw [dif_pos hv]
      rfl
    rw [Char.toLower_eq_ite c, if_pos h, Char.toLower_eq_ite, ht, if_neg (by omega)]
  · rw [Char.toLower_eq_ite c, if_neg h, Char.toLower_eq_ite c, if_neg h]

theorem jsToLower_idem (s : String) : jsToLower (jsToLower s) = jsToLower s := by
  unfold jsToLower
  apply congrArg String.mk
  show (s.data.map Char.toLower).map Char.toLower = s.data.map Char.toLower
  rw [List.map_map]
  exact List.map_congr_left fun c _ => Char.toLower_toLower c

theorem route_eq_find (p : String) :
    route p = ruleOrder.find? fun r => jsIncludes p r.pat := by
  unfold route ruleOrder
  simp only [List.find?_cons]
  cases jsIncludes p Rule.errors.pat <;>
    cases jsIncludes p Rule.policies.pat <;>
    cases jsIncludes p Rule.version.pat <;>
    cases jsIncludes p Rule.shards.pat <;>
    cases jsIncludes p Rule.allocation.pat <;>
    cases jsIncludes p Rule.settings.pat <;>
    cases jsIncludes p Rule.nodesStats.pat <;>
    cases jsIncludes p Rule.pipelines.pat <;> rfl

/-! ### Claim theorems -/

/-- An archive whose only entry is a version file containing `null`. -/
def c1NullVersion : List ZipEntry := [⟨"version.json", false, some .null⟩]

/-- C1 counterexample: the version filename matches a non-directory
entry and `JSON.parse("null")` succeeds, the run is non-fatal and the
callback fires, yet the delivered version field is `null` —
indistinguishable from absent — so the bundle does not "have exactly the
fields whose recognized filename matched" as the claim states. -/
theorem c1_counterexample :
    foundIn c1NullVersion .version ∧
    (processZipFile (.ok c1NullVersion)).fatal = none ∧
    (processZipFile (.ok c1NullVersion)).calls.map (fun b => b.get .version) = [.null] :=
  ⟨by decide, rfl, rfl⟩

/-- C1 amended: for every archive that opens successfully and whose
matched entries parse to truthy JSON values (as real diagnostic files —
JSON objects and arrays — do), ingestion never throws (the run is
non-fatal and delivers the bundle once), and the bundle handed to
`onDataLoaded` has exactly the fields whose recognized filename matched
some non-directory entry; every other field is null, except `shards`,
which is the empty array when no shards entry matched.  (In general a
matched entry parsing to a falsy value is delivered as null/empty,
indistinguishable from absent — see the counterexample.) -/
theorem c1_bundle_has_exactly_matched_fields (entries : List ZipEntry)
    (h : wellFormed entries) :
    (processZipFile (.ok entries)).fatal = none ∧
    (processZipFile (.ok entries)).calls = [bundleOf (processEntries entries)] ∧
    (∀ r : Rule, r ≠ .shards →
      ((bundleOf (processEntries entries)).get r ≠ .null ↔ foundIn entries r)) ∧
    (¬ foundIn entries .shards →
      (bundleOf (processEntries entries)).get .shards = .arr []) := by
  refine ⟨rfl, rfl, ?_, ?_⟩
  · intro r hr
    rw [bundleOf_get_ne_shards _ r hr]
    exact get_ne_null_iff_found entries r h
  · intro hnf
    have hs : (processEntries entries).shardsJson = Json.null :=
      not_found_get_null entries .shards hnf
    rw [bundleOf_get_shards, hs]
    rfl

/-- A small archive for the C1 witness: one shards file, one unrelated
text file, one directory entry. -/
def c1WitnessArchive : List ZipEntry :=
  [⟨"diag/shards.json", false, some (.arr [.obj []])⟩,
   ⟨"notes.txt", false, some (.str "hello")⟩,
   ⟨"folder/", true, none⟩]

theorem c1_witness :
    wellFormed c1WitnessArchive ∧
    ((processZipFile (.ok c1WitnessArchive)).fatal = none ∧
     (processZipFile (.ok c1WitnessArchive)).calls =
       [bundleOf (processEntries c1WitnessArchive)] ∧
     (∀ r : Rule, r ≠ .shards →
       ((bundleOf (processEntries c1WitnessArchive)).get r ≠ .null ↔
         foundIn c1WitnessArchive r)) ∧
     (¬ foundIn c1WitnessArchive .shards →
       (bundleOf (processEntries c1WitnessArchive)).get .shards = .arr [])) :=
  ⟨by decide, c1_bundle_has_exactly_matched_fields c1WitnessArchive (by decide)⟩

/-- C2: An entry whose content fails to decode or parse is swallowed: the
whole observable run (bundle, advisory, storage, callback list) is
exactly what it would be had the corrupted entry not been in the archive
at all; in particular the field the entry's filename routes to is null
when no other entry populates it. -/
theorem c2_corrupt_entry_is_isolated (pre post : List ZipEntry) (e : ZipEntry)
    (h : e.content = none) :
    processZipFile (.ok (pre ++ e :: post)) = processZipFile (.ok (pre ++ post)) ∧
    (∀ r : Rule, route (jsToLower e.path) = some r →
      (∀ e2 ∈ pre ++ post, ¬ matchedEntry e2 r) →
      (processEntries (pre ++ e :: post)).get r = .null) := by
  have hskip : applyEntry (pre.foldl applyEntry .init) e = pre.foldl applyEntry .init := by
    simp [applyEntry, h]
  have hst : processEntries (pre ++ e :: post) = processEntries (pre ++ post) := by
    unfold processEntries
    rw [List.foldl_append, List.foldl_append, List.foldl_cons, hskip]
  have hrun : ∀ l : List ZipEntry, processZipFile (.ok l) =
      { calls := [bundleOf (processEntries l)], advisory := advisoryOf (processEntries l),
        stored := settingsStore (processEntries l), fatal := none } := fun _ => rfl
  constructor
  · rw [hrun, hrun, hst]
  · intro r _ hall
    apply not_found_get_null
    rintro ⟨e2, hmem, hm⟩
    rcases List.mem_append.mp hmem with h2 | h2
    · exact hall e2 (List.mem_append_left post h2) hm
    · rcases List.mem_cons.mp h2 with h3 | h3
      · subst h3
        rcases hm with ⟨_, hc, _⟩
        rw [h] at hc
        exact Bool.noConfusion hc
      · exact hall e2 (List.mem_append_right pre h3) hm

/-- Concrete data for the C2 witness: a corrupted policies entry sits
between two good entries. -/
def c2GoodPre : List ZipEntry := [⟨"ilm_explain_only_errors.json", false, some (.obj [])⟩]

def c2GoodPost : List ZipEntry := [⟨"version.json", false, some (.obj [("number", .str "8")])⟩]

def c2Corrupt : ZipEntry := ⟨"ilm_policies.json", false, none⟩

theorem c2_witness :
    c2Corrupt.content = none ∧
    (processZipFile (.ok (c2GoodPre ++ c2Corrupt :: c2GoodPost)) =
       processZipFile (.ok (c2GoodPre ++ c2GoodPost)) ∧
     (∀ r : Rule, route (jsToLower c2Corrupt.path) = some r →
       (∀ e2 ∈ c2GoodPre ++ c2GoodPost, ¬ matchedEntry e2 r) →
       (processEntries (c2GoodPre ++ c2Corrupt :: c2GoodPost)).get r = .null)) :=
  ⟨rfl, c2_corrupt_entry_is_isolated c2GoodPre c2GoodPost c2Corrupt rfl⟩

/-- C3: If the archive container cannot be opened, the run is fatal and
`onDataLoaded` is never invoked (no partial bundle); for every
successfully-opened archive, `onDataLoaded` is invoked exactly once. -/
theorem c3_fatal_open_no_callback :
    (∀ msg : String, processZipFile (.error msg) =
      { calls := [], advisory := none, stored := [], fatal := some msg }) ∧
    (∀ entries : List ZipEntry, (processZipFile (.ok entries)).calls.length = 1) :=
  ⟨fun _ => rfl, fun _ => rfl⟩

/-- Demo resources where all nine fetches and decodes succeed but the
settings resource decodes to JSON `null` (a falsy value). -/
def demoResFalsySettings : DemoResources :=
  ⟨some (.obj []), some (.obj []), some (.obj []), some (.obj []),
   some (.arr []), some (.obj []), some .null, some (.obj []), some (.obj [])⟩

/-- C4 counterexample: all nine demo resources succeed, the run is
non-fatal and the callback fires once, yet only two keys
(`index_templates`, `aliases`) are written, because `settings` is only
stored under `if (settingsJson)` and the decoded settings value is
falsy.  This refutes "exactly three keys are written to persistent
storage" as stated. -/
theorem c4_counterexample :
    demoResFalsySettings.errors.isSome = true ∧
    demoResFalsySettings.policies.isSome = true ∧
    demoResFalsySettings.templates.isSome = true ∧
    demoResFalsySettings.aliases.isSome = true ∧
    demoResFalsySettings.shards.isSome = true ∧
    demoResFalsySettings.allocation.isSome = true ∧
    demoResFalsySettings.settings.isSome = true ∧
    demoResFalsySettings.nodesStats.isSome = true ∧
    demoResFalsySettings.pipelines.isSome = true ∧
    (loadDemoData demoResFalsySettings).fatal = none ∧
    (loadDemoData demoResFalsySettings).calls.length = 1 ∧
    (loadDemoData demoResFalsySettings).stored.map Prod.fst =
      ["index_templates", "aliases"] ∧
    ¬ (loadDemoData demoResFalsySettings).stored.length = 3 :=
  ⟨rfl, rfl, rfl, rfl, rfl, rfl, rfl, rfl, rfl, rfl, rfl, rfl, by decide⟩

/-- C4 amended: if any one of the nine fixed demo fetches or decodes
fails, the whole operation fails with the fatal message and the callback
is not invoked; if all nine succeed, the callback is invoked once with
the version field absent, `index_templates` and `aliases` are always
written, and `settings` is written additionally exactly when its decoded
value is truthy (three keys in that case, two otherwise). -/
theorem c4_demo_all_or_nothing (res : DemoResources) :
    ((res.errors.isSome && res.policies.isSome && res.templates.isSome &&
      res.aliases.isSome && res.shards.isSome && res.allocation.isSome &&
      res.settings.isSome && res.nodesStats.isSome && res.pipelines.isSome) = false →
      loadDemoData res = { calls := [], stored := [], fatal := some "Failed to load demo data" }) ∧
    (∀ e p t a sh al se ns pi : Json,
      res = ⟨some e, some p, some t, some a, some sh, some al, some se, some ns, some pi⟩ →
      (loadDemoData res).fatal = none ∧
      (loadDemoData res).calls =
        [{ errors := e, policies := p, version := none, shards := sh,
           allocation := al, settings := se, nodesStats := ns, pipelines := pi }] ∧
      (loadDemoData res).stored.map Prod.fst =
        ["index_templates", "aliases"] ++ (if truthy se then ["settings"] else [])) := by
  constructor
  · rcases res with ⟨e, p, t, a, sh, al, se, ns, pi⟩
    cases e <;> cases p <;> cases t <;> cases a <;> cases sh <;> cases al <;>
      cases se <;> cases ns <;> cases pi <;> intro hfail <;>
      first
        | rfl
        | exact absurd hfail (by simp)
  · rintro e p t a sh al se ns pi rfl
    refine ⟨rfl, rfl, ?_⟩
    show (([("index_templates", t), ("aliases", a)] ++
        (if truthy se then [("settings", se)] else [])).map Prod.fst) =
      ["index_templates", "aliases"] ++ (if truthy se then ["settings"] else [])
    cases truthy se <;> rfl

/-- Demo resources with one failing fetch (policies). -/
def demoResMissingOne : DemoResources :=
  ⟨some (.obj []), none, some (.obj []), some (.obj []), some (.arr []),
   some (.obj []), some (.obj []), some (.obj []), some (.obj [])⟩

/-- Demo resources where all nine succeed with a truthy settings value. -/
def demoResAllGood : DemoResources :=
  ⟨some (.obj []), some (.obj []), some (.obj []), some (.arr []),
   some (.arr [.obj []]), some (.obj []), some (.obj [("persistent", .obj [])]),
   some (.obj []), some (.obj [])⟩

theorem c4_witness :
    ((demoResMissingOne.errors.isSome && demoResMissingOne.policies.isSome &&
      demoResMissingOne.templates.isSome && demoResMissingOne.aliases.isSome &&
      demoResMissingOne.shards.isSome && demoResMissingOne.allocation.isSome &&
      demoResMissingOne.settings.isSome && demoResMissingOne.nodesStats.isSome &&
      demoResMissingOne.pipelines.isSome) = false ∧
     loadDemoData demoResMissingOne =
       { calls := [], stored := [], fatal := some "Failed to load demo data" }) ∧
    ((loadDemoData demoResAllGood).fatal = none ∧
     (loadDemoData demoResAllGood).stored.map Prod.fst =
       ["index_templates", "aliases", "settings"]) :=
  ⟨⟨rfl, (c4_demo_all_or_nothing demoResMissingOne).1 rfl⟩,
   ⟨((c4_demo_all_or_nothing demoResAllGood).2 (.obj []) (.obj []) (.obj []) (.arr [])
       (.arr [.obj []]) (.obj []) (.obj [("persistent", .obj [])]) (.obj []) (.obj [])
       rfl).1,
    Eq.trans
      (((c4_demo_all_or_nothing demoResAllGood).2 (.obj []) (.obj []) (.obj []) (.arr [])
         (.arr [.obj []]) (.obj []) (.obj [("persistent", .obj [])]) (.obj []) (.obj [])
         rfl).2.2)
      rfl⟩⟩

/-- An archive in which both ILM files are present and parse, but the
errors file's JSON value is `null`. -/
def c5BothFoundFalsy : List ZipEntry :=
  [⟨"ilm_explain_only_errors.json", false, some .null⟩,
   ⟨"ilm_policies.json", false, some (.obj [])⟩]

/-- C5 counterexample: both the errors file and the policies file are
found (matched and successfully parsed), yet the advisory is still
raised, naming the errors file: the code tests JavaScript truthiness of
the parsed value (`!errorsJson`), not whether the entry was found, and
`JSON.parse("null")` succeeds with a falsy value.  This refutes "if both
were found, no advisory is raised". -/
theorem c5_counterexample :
    foundIn c5BothFoundFalsy .errors ∧
    foundIn c5BothFoundFalsy .policies ∧
    (processZipFile (.ok c5BothFoundFalsy)).advisory =
      some ["ilm_explain_only_errors.json"] :=
  ⟨by decide, by decide, rfl⟩

/-- C5 amended: for archives whose routed entries parse to truthy
values, ingestion still completes (exactly one callback, no fatal
error), and the advisory is raised exactly when the errors file or the
policies file is missing, naming exactly the missing filename(s). -/
theorem c5_advisory_names_missing (entries : List ZipEntry) (h : wellFormed entries) :
    (processZipFile (.ok entries)).fatal = none ∧
    (processZipFile (.ok entries)).calls.length = 1 ∧
    (processZipFile (.ok entries)).advisory =
      (if foundIn entries .errors ∧ foundIn entries .policies then none
       else some
         ((if foundIn entries .errors then [] else ["ilm_explain_only_errors.json"]) ++
          (if foundIn entries .policies then [] else ["ilm_policies.json"]))) := by
  refine ⟨rfl, rfl, ?_⟩
  have he : truthy ((processEntries entries).errorsJson) = true ↔ foundIn entries .errors :=
    truthy_get_iff_found entries .errors h
  have hp : truthy ((processEntries entries).policiesJson) = true ↔ foundIn entries .policies :=
    truthy_get_iff_found entries .policies h
  show advisoryOf (processEntries entries) = _
  by_cases hfe : foundIn entries .errors <;> by_cases hfp : foundIn entries .policies
  · have h1 : truthy ((processEntries entries).errorsJson) = true := he.mpr hfe
    have h2 : truthy ((processEntries entries).policiesJson) = true := hp.mpr hfp
    simp [advisoryOf, h1, h2, hfe, hfp]
  · have h1 : truthy ((processEntries entries).errorsJson) = true := he.mpr hfe
    have h2 : truthy ((processEntries entries).policiesJson) = false := by
      cases htr : truthy ((processEntries entries).policiesJson)
      · rfl
      · exact absurd (hp.mp htr) hfp
    simp [advisoryOf, missingFiles, h1, h2, hfe, hfp]
  · have h1 : truthy ((processEntries entries).errorsJson) = false := by
      cases htr : truthy ((processEntries entries).errorsJson)
      · rfl
      · exact absurd (he.mp htr) hfe
    have h2 : truthy ((processEntries entries).policiesJson) = true := hp.mpr hfp
    simp [advisoryOf, missingFiles, h1, h2, hfe, hfp]
  · have h1 : truthy ((processEntries entries).errorsJson) = false := by
      cases htr : truthy ((processEntries entries).errorsJson)
      · rfl
      · exact absurd (he.mp htr) hfe
    have h2 : truthy ((processEntries entries).policiesJson) = false := by
      cases htr : truthy ((processEntries entries).policiesJson)
      · rfl
      · exact absurd (hp.mp htr) hfp
    simp [advisoryOf, missingFiles, h1, h2, hfe, hfp]

/-- A well-formed archive containing only a policies file. -/
def c5WitnessArchive : List ZipEntry := [⟨"ilm_policies.json", false, some (.obj [])⟩]

theorem c5_witness :
    wellFormed c5WitnessArchive ∧
    ((processZipFile (.ok c5WitnessArchive)).fatal = none ∧
     (processZipFile (.ok c5WitnessArchive)).calls.length = 1 ∧
     (processZipFile (.ok c5WitnessArchive)).advisory =
       (if foundIn c5WitnessArchive .errors ∧ foundIn c5WitnessArchive .policies then none
        else some
          ((if foundIn c5WitnessArchive .errors then []
            else ["ilm_explain_only_errors.json"]) ++
           (if foundIn c5WitnessArchive .policies then [] else ["ilm_policies.json"])))) :=
  ⟨by decide, c5_advisory_names_missing c5WitnessArchive (by decide)⟩

/-- C6: Filename matching is case-insensitive and substring-based: an
entry's path matches a rule exactly when the lower-cased path contains
the rule's filename as a substring; lower-casing the path first never
changes the answer; and `Data/ILM_Policies.JSON` matches (and is routed
to) the policies rule. -/
theorem c6_case_insensitive_substring :
    (∀ (p : String) (r : Rule), matchesRule r p = true ↔ r.pat.data <:+: (jsToLower p).data) ∧
    (∀ (p : String) (r : Rule), matchesRule r p = matchesRule r (jsToLower p)) ∧
    matchesRule .policies "Data/ILM_Policies.JSON" = true ∧
    route (jsToLower "Data/ILM_Policies.JSON") = some .policies := by
  refine ⟨?_, ?_, by decide, by decide⟩
  · intro p r
    simp [matchesRule, jsIncludes]
  · intro p r
    rw [matchesRule, matchesRule, jsToLower_idem]

/-- C7: At most one rule applies per entry, namely the first of the
fixed ordered table whose substring the lower-cased path contains
(`route` is exactly `find?` over the ordered table); on the given
filenames themselves no entry matches two rules; and a loop iteration
either leaves the state unchanged or assigns exactly the one variable of
the routed rule. -/
theorem c7_first_match_exclusive :
    (∀ p : String, route p = ruleOrder.find? fun r => jsIncludes p r.pat) ∧
    (∀ r r2 : Rule, matchesRule r2 r.pat = true → r2 = r) ∧
    (∀ (st : ZipState) (e : ZipEntry),
      applyEntry st e = st ∨
      ∃ r j, e.content = some j ∧ route (jsToLower e.path) = some r ∧
        applyEntry st e = { st.set r j with foundFiles := st.foundFiles ++ [r.foundName] }) := by
  refine ⟨route_eq_find, by decide, ?_⟩
  intro st e
  rcases e with ⟨p, d, c⟩
  cases d
  · cases c with
    | none => left; rfl
    | some j =>
      cases hr : route (jsToLower p) with
      | none =>
        left
        simp [applyEntry, hr]
      | some r =>
        right
        refine ⟨r, j, rfl, rfl, ?_⟩
        simp [applyEntry, hr]
  · left
    simp [applyEntry]

theorem c7_witness :
    matchesRule .policies (Rule.pat .policies) = true ∧ Rule.policies = Rule.policies :=
  ⟨by decide, c7_first_match_exclusive.2.1 .policies .policies (by decide)⟩

/-- Shared helper: if `e` is a non-directory entry routed to `r` whose
content parses to `j`, and no entry after `e` is routed to `r`, then
after the loop the variable of `r` holds `j`, whatever came before. -/
theorem get_last_sandwich (pre post : List ZipEntry) (e : ZipEntry) (r : Rule) (j : Json)
    (hd : e.dir = false) (hc : e.content = some j)
    (hr : route (jsToLower e.path) = some r)
    (hpost : ∀ e2 ∈ post, ¬ matchedEntry e2 r) :
    (processEntries (pre ++ e :: post)).get r = j := by
  have hm : matchedEntry e r := ⟨hd, by rw [hc]; rfl, hr⟩
  have hstep : stepMatch r none e = some j := (stepMatch_none_eq_some r e j).mpr ⟨hm, hc⟩
  have hpostnone : lastMatch post r = none := (lastMatch_eq_none post r).mpr hpost
  have hcons : lastMatch (e :: post) r = some j := by
    rw [lastMatch_cons, hpostnone]
    exact hstep
  have hall : lastMatch (pre ++ e :: post) r = some j := by
    rw [lastMatch_append, hcons]
  rw [get_processEntries, hall]

/-- An archive whose settings file parses to JSON `null`. -/
def c8NullSettings : List ZipEntry := [⟨"settings.json", false, some .null⟩]

/-- C8 counterexample: the settings file is found (matched and
successfully parsed), yet nothing at all is persisted, because the
storage write is guarded by `if (settingsJson)` and the parsed value is
falsy.  This refutes "its parsed value is persisted" as stated. -/
theorem c8_counterexample :
    foundIn c8NullSettings .settings ∧
    (processZipFile (.ok c8NullSettings)).stored = [] :=
  ⟨by decide, rfl⟩

/-- C8 amended: if the last settings match of the archive parses to a
truthy value `j`, then `("settings", j)` is persisted and `j` is also
delivered as the settings field of the bundle (persistence happens
exactly for truthy settings values). -/
theorem c8_truthy_settings_persisted (pre post : List ZipEntry) (e : ZipEntry) (j : Json)
    (hd : e.dir = false) (hc : e.content = some j)
    (hr : route (jsToLower e.path) = some .settings)
    (ht : truthy j = true)
    (hpost : ∀ e2 ∈ post, ¬ matchedEntry e2 .settings) :
    (processZipFile (.ok (pre ++ e :: post))).stored = [("settings", j)] ∧
    (processZipFile (.ok (pre ++ e :: post))).calls.map Bundle.settings = [j] := by
  have hget : (processEntries (pre ++ e :: post)).get .settings = j :=
    get_last_sandwich pre post e .settings j hd hc hr hpost
  have hs : (processEntries (pre ++ e :: post)).settingsJson = j := hget
  constructor
  · show settingsStore (processEntries (pre ++ e :: post)) = _
    rw [settingsStore, hs, if_pos ht]
  · show [bundleOf (processEntries (pre ++ e :: post))].map Bundle.settings = [j]
    simp [bundleOf, hs]

def c8WitnessPre : List ZipEntry := [⟨"other.txt", false, some (.str "x")⟩]

def c8WitnessEntry : ZipEntry :=
  ⟨"config/settings.json", false, some (.obj [("persistent", .obj [])])⟩

theorem c8_witness :
    (c8WitnessEntry.dir = false ∧
     c8WitnessEntry.content = some (.obj [("persistent", .obj [])]) ∧
     route (jsToLower c8WitnessEntry.path) = some .settings ∧
     truthy (.obj [("persistent", .obj [])]) = true ∧
     (∀ e2 ∈ ([] : List ZipEntry), ¬ matchedEntry e2 .settings)) ∧
    ((processZipFile (.ok (c8WitnessPre ++ c8WitnessEntry :: []))).stored =
       [("settings", .obj [("persistent", .obj [])])] ∧
     (processZipFile (.ok (c8WitnessPre ++ c8WitnessEntry :: []))).calls.map Bundle.settings =
       [.obj [("persistent", .obj [])]]) :=
  ⟨⟨rfl, rfl, by decide, rfl, by decide⟩,
   c8_truthy_settings_persisted c8WitnessPre [] c8WitnessEntry
     (.obj [("persistent", .obj [])]) rfl rfl (by decide) rfl (by decide)⟩

/-- C9: with no master record no node is ever marked as master; with a
master record, a node is marked exactly when its identifier equals the
record's `id` or its name equals the record's `node` field (logical OR). -/
theorem c9_master_identification :
    (∀ nodeId nodeName : String, isMasterNode none nodeId nodeName = false) ∧
    (∀ (m : MasterNode) (nodeId nodeName : String),
      isMasterNode (some m) nodeId nodeName = true ↔
        (m.id = some nodeId ∨ m.node = some nodeName)) := by
  refine ⟨fun _ _ => rfl, ?_⟩
  intro m i n
  simp [isMasterNode]

/-- An archive with two shards matches, the last of which parses to the
falsy JSON number `0`. -/
def c10ShardsFirst : ZipEntry := ⟨"shards.json", false, some (.arr [.obj []])⟩

def c10ShardsLast : ZipEntry := ⟨"data/shards.json", false, some (.num 0)⟩

def c10FalsyShards : List ZipEntry := [c10ShardsFirst, c10ShardsLast]

/-- C10 counterexample: two non-directory entries match the shards rule
and both parse successfully; the internal variable does hold the content
of the last one (`0`), but the delivered shards field is the empty array
(`shardsJson || []` defaults every falsy value), not the parsed content
of the last matching entry as the claim states. -/
theorem c10_counterexample :
    matchedEntry c10ShardsFirst .shards ∧
    matchedEntry c10ShardsLast .shards ∧
    (processEntries c10FalsyShards).get .shards = .num 0 ∧
    (processZipFile (.ok c10FalsyShards)).calls.map (fun b => b.get .shards) = [.arr []] ∧
    (Json.arr [] = Json.num 0 → False) :=
  ⟨by decide, by decide, rfl, rfl, fun h => Json.noConfusion h⟩

/-- C10 amended: with two or more entries routed to the same rule, the
variable of that rule holds the parsed content of the matching entry
enumerated last — whatever earlier matches occurred (the whole prefix
`pre`) is silently overwritten — and the delivered bundle field equals
that content, except that a falsy shards value is delivered as the empty
array (the `shardsJson || []` default). -/
theorem c10_last_match_wins (pre post : List ZipEntry) (e : ZipEntry) (r : Rule) (j : Json)
    (hd : e.dir = false) (hc : e.content = some j)
    (hr : route (jsToLower e.path) = some r)
    (hpost : ∀ e2 ∈ post, ¬ matchedEntry e2 r) :
    (processEntries (pre ++ e :: post)).get r = j ∧
    (processZipFile (.ok (pre ++ e :: post))).calls.map (fun b => b.get r) =
      [if r = Rule.shards ∧ truthy j = false then Json.arr [] else j] := by
  have hget : (processEntries (pre ++ e :: post)).get r = j :=
    get_last_sandwich pre post e r j hd hc hr hpost
  refine ⟨hget, ?_⟩
  have helem : (bundleOf (processEntries (pre ++ e :: post))).get r =
      if r = Rule.shards ∧ truthy j = false then Json.arr [] else j := by
    by_cases hsh : r = Rule.shards
    · subst hsh
      have h2 : (processEntries (pre ++ e :: post)).shardsJson = j := hget
      rw [bundleOf_get_shards, h2]
      cases truthy j <;> simp
    · rw [bundleOf_get_ne_shards _ r hsh, hget, if_neg (fun hh => hsh hh.1)]
  show [bundleOf (processEntries (pre ++ e :: post))].map (fun b => b.get r) = _
  rw [List.map_singleton, helem]

def c10Pre : List ZipEntry := [⟨"version.json", false, some (.str "old")⟩]

def c10Dup : ZipEntry := ⟨"nested/version.json", false, some (.str "new")⟩

theorem c10_witness :
    (c10Dup.dir = false ∧
     c10Dup.content = some (.str "new") ∧
     route (jsToLower c10Dup.path) = some .version ∧
     (∀ e2 ∈ ([] : List ZipEntry), ¬ matchedEntry e2 .version)) ∧
    ((processEntries (c10Pre ++ c10Dup :: [])).get .version = .str "new" ∧
     (processZipFile (.ok (c10Pre ++ c10Dup :: []))).calls.map
       (fun b => b.get .version) = [.str "new"]) :=
  ⟨⟨rfl, rfl, by decide, by decide⟩,
   ⟨(c10_last_match_wins c10Pre [] c10Dup .version (.str "new")
       rfl rfl (by decide) (by decide)).1,
    Eq.trans
      (c10_last_match_wins c10Pre [] c10Dup .version (.str "new")
        rfl rfl (by decide) (by decide)).2
      rfl⟩⟩
